import Mathlib

/-!
Verification of the unit-disk-mapping grid construction
(`qamomile/udm/copyline.py`): CopyLine records, the Line Factory
`create_copylines`, the `CrossingLattice` block query, and the geometry
emitter `copyline_locations`.

Python integers are embedded as `Int`; Python `range` loops over lists of
consecutive integers; the `for line in self.lines` loop of
`CrossingLattice.__getitem__` is a left fold over the line list; raising
`IndexError` is embedded as returning `none`.
-/

namespace Udm

/-- `CopyLine` record: one T-shaped path per original-graph vertex
(fields as in the Python dataclass). -/
structure CopyLine where
  vertex : Int
  vslot : Int
  hslot : Int
  vstart : Int
  vstop : Int
  hstop : Int
deriving DecidableEq, Repr, Inhabited

/-- Modelled from the spec: the `Node` value type of `qamomile/udm/core.py`
(not present in the sources), "a weighted grid point: integer coordinates
(row, col) plus a numeric weight"; constructing it without a weight gives
the unit weight (`ONE_INSTANCE`, "always effectively 1"). -/
structure Node where
  row : Int
  col : Int
  weight : Int
deriving DecidableEq, Repr

/-- `Block` record of the crossing lattice: `-1` is the "no line"
sentinel, and `connected` is `-1` not applicable / `0` not connected /
`1` connected. -/
structure Block where
  top : Int
  bottom : Int
  left : Int
  right : Int
  connected : Int
deriving DecidableEq, Repr

/-- The graph argument: `networkx` graphs enter the module only through
`has_edge` queries (and, for order validation discussed by the spec, their
node set), so a graph is embedded as its node list plus its edge oracle. -/
structure Graph where
  nodes : List Int
  hasEdge : Int → Int → Bool

/-- `CrossingLattice.__init__`: width, height, the line list and the graph. -/
structure CrossingLattice where
  width : Int
  height : Int
  lines : List CopyLine
  graph : Graph

/-- Scan state of the `for line in self.lines` loop of `__getitem__`:
the four connection variables, initially all `-1`. -/
structure ScanState where
  top : Int
  bottom : Int
  left : Int
  right : Int
deriving DecidableEq, Repr

/-- Lines 101-113 of `copyline.py`: the vertical-slot branch of the loop
body (`if line.vslot == j:` with `i` fixed). -/
def scanStepV (i : Int) (line : CopyLine) (s : ScanState) : ScanState :=
  if line.vstart = i ∧ line.vstop = i then s
  else if line.vstart = i then { s with bottom := line.vertex }
  else if line.vstop = i then { s with top := line.vertex }
  else if line.vstart < i ∧ i < line.vstop then
    { s with top := line.vertex, bottom := line.vertex }
  else s

/-- Lines 116-128 of `copyline.py`: the horizontal-slot branch of the loop
body (`if line.hslot == i:` with `j` fixed). -/
def scanStepH (j : Int) (line : CopyLine) (s : ScanState) : ScanState :=
  if line.vslot = j ∧ line.hstop = j then s
  else if line.vslot = j then { s with right := line.vertex }
  else if line.hstop = j then { s with left := line.vertex }
  else if line.vslot < j ∧ j < line.hstop then
    { s with left := line.vertex, right := line.vertex }
  else s

/-- One iteration of the `for line in self.lines` loop at query `(i, j)`:
the vertical check guarded by `line.vslot == j`, then the horizontal check
guarded by `line.hslot == i`. -/
def scanStep (i j : Int) (s : ScanState) (line : CopyLine) : ScanState :=
  let s1 := if line.vslot = j then scanStepV i line s else s
  if line.hslot = i then scanStepH j line s1 else s1

/-- Line 131 of `copyline.py`: `h = left if left != -1 else right`,
read off a finished block. -/
def Block.hline (b : Block) : Int :=
  if b.left ≠ -1 then b.left else b.right

/-- Line 132 of `copyline.py`: `v = top if top != -1 else bottom`,
read off a finished block. -/
def Block.vline (b : Block) : Int :=
  if b.top ≠ -1 then b.top else b.bottom

/-- `CrossingLattice.__getitem__` for a pair `(i, j)`: bounds check
(raising `IndexError`, embedded as `none`), the scan over all lines, then
the connectivity decision `connected = 1 if graph.has_edge(h, v) else 0`
when both `v` and `h` are set, `-1` otherwise. -/
def CrossingLattice.getItem (lat : CrossingLattice) (i j : Int) : Option Block :=
  if 1 ≤ i ∧ i ≤ lat.height ∧ 1 ≤ j ∧ j ≤ lat.width then
    let st := lat.lines.foldl (scanStep i j) ⟨-1, -1, -1, -1⟩
    let h := if st.left ≠ -1 then st.left else st.right
    let v := if st.top ≠ -1 then st.top else st.bottom
    let connected : Int :=
      if v ≠ -1 ∧ h ≠ -1 then (if lat.graph.hasEdge h v then 1 else 0) else -1
    some ⟨st.top, st.bottom, st.left, st.right, connected⟩
  else
    none

/-- The CopyLine built for the vertex at (0-based) order position
`slot - 1` by `create_copylines`: `vslot = hslot = slot`, `vstart = 1`,
`vstop = hstop = n`. -/
def diagLine (n slot w : Int) : CopyLine :=
  ⟨w, slot, slot, 1, n, n⟩

/-- The `for i, v in enumerate(vertex_order)` loop of `create_copylines`,
carrying the running index `m`. -/
def mkLines (n : Int) : Nat → List Int → List CopyLine
  | _, [] => []
  | m, v :: rest => diagLine n ((m : Int) + 1) v :: mkLines n (m + 1) rest

/-- `create_copylines(g, vertex_order)`: `n = len(vertex_order)`; one
CopyLine per order entry with `vslot = hslot = i + 1`, `vstart = 1`,
`vstop = n`, `hstop = n`. The graph argument is accepted but never read. -/
def create_copylines (_g : Graph) (vertex_order : List Int) : List CopyLine :=
  mkLines (vertex_order.length : Int) 0 vertex_order

/-- `center_location(tc, padding)`: spacing factor `s = 4`,
`I = s*(hslot-1) + padding + 2`, `J = s*(vslot-1) + padding + 1`. -/
def center_location (tc : CopyLine) (padding : Int) : Int × Int :=
  (4 * (tc.hslot - 1) + padding + 2, 4 * (tc.vslot - 1) + padding + 1)

/-- `node_from_type(node_type, i, j, w)`: the unweighted variant drops the
weight (unit weight), the weighted variant keeps it. -/
def node_from_type (node_type : String) (i j w : Int) : Node :=
  if node_type = "UnWeightedNode" then ⟨i, j, 1⟩ else ⟨i, j, w⟩

/-- Python `range(a, b - 1, -1)`: the descending run `[a, a-1, ..., b]`,
empty when `b > a`. -/
def rangeDown (a b : Int) : List Int :=
  (List.range (a + 1 - b).toNat).map (fun (k : Nat) => a - (k : Int))

/-- Python `range(a, b + 1)`: the ascending run `[a, a+1, ..., b]`,
empty when `b > a`. -/
def rangeUp (a b : Int) : List Int :=
  (List.range (b + 1 - a).toNat).map (fun (k : Nat) => a + (k : Int))

/-- The `nline` counter of `copyline_locations`: one increment per grown
direction — up when `vstart < hslot`, down when `vstop > hslot`, right
when `hstop > vslot`. -/
def nlineCount (tc : CopyLine) : Int :=
  (if tc.vstart < tc.hslot then 1 else 0)
    + (if tc.vstop > tc.hslot then 1 else 0)
    + (if tc.hstop > tc.vslot then 1 else 0)

/-- `copyline_locations(node_type, tc, padding)`: the upward run from `I`
down to `start`, the downward run from `I` to `stop` whose first step is
the turn node `(I+1, J+1)` with weight 2, the rightward run from `J+2`,
and finally the center node at `(I, J+1)` with weight `nline`. Run nodes
get weight 2 mid-path and weight 1 at the free end. -/
def copyline_locations (node_type : String) (tc : CopyLine) (padding : Int) :
    List Node :=
  let s : Int := 4
  let I := (center_location tc padding).1
  let J := (center_location tc padding).2
  let start := I + s * (tc.vstart - tc.hslot) + 1
  let upNodes := (rangeDown I start).map
    (fun i => node_from_type node_type i J (1 + (if i ≠ start then 1 else 0)))
  let stopD := I + s * (tc.vstop - tc.hslot) - 1
  let downNodes := (rangeUp I stopD).map
    (fun i =>
      if i = I then node_from_type node_type (i + 1) (J + 1) 2
      else node_from_type node_type i J (1 + (if i ≠ stopD then 1 else 0)))
  let stopR := J + s * (tc.hstop - tc.vslot) - 1
  let rightNodes := (rangeUp (J + 2) stopR).map
    (fun j => node_from_type node_type I j (1 + (if j ≠ stopR then 1 else 0)))
  upNodes ++ downNodes ++ rightNodes
    ++ [node_from_type node_type I (J + 1) (nlineCount tc)]

/-! ### Concrete instances used throughout -/

/-- The spec's concrete scenario graph: vertices `{0, 1, 2}`, undirected
edges `{(0,1), (1,2)}`. -/
def g3 : Graph :=
  ⟨[0, 1, 2], fun x y =>
    decide ((x = 0 ∧ y = 1) ∨ (x = 1 ∧ y = 0) ∨ (x = 1 ∧ y = 2) ∨ (x = 2 ∧ y = 1))⟩

/-- The crossing lattice of the concrete scenario: order `[0, 1, 2]`. -/
def lat3 : CrossingLattice :=
  ⟨3, 3, create_copylines g3 [0, 1, 2], g3⟩

/-! ### Basic lemmas -/

theorem mkLines_length (n : Int) (m : Nat) (l : List Int) :
    (mkLines n m l).length = l.length := by
  induction l generalizing m with
  | nil => rfl
  | cons v rest ih => simp [mkLines, ih]

theorem mkLines_getD (n : Int) (m : Nat) (l : List Int) (k : Nat)
    (hk : k < l.length) :
    (mkLines n m l).getD k default =
      diagLine n ((m : Int) + (k : Int) + 1) (l.getD k 0) := by
  induction l generalizing m k with
  | nil => simp at hk
  | cons v rest ih =>
    cases k with
    | zero => simp [mkLines, diagLine]
    | succ k' =>
      have hk' : k' < rest.length := by simpa using hk
      have := ih (m + 1) k' hk'
      simp only [mkLines, List.getD_cons_succ]
      rw [this]
      congr 1
      push_cast
      ring

theorem create_copylines_length (g : Graph) (order : List Int) :
    (create_copylines g order).length = order.length := by
  unfold create_copylines
  exact mkLines_length _ _ _

theorem create_copylines_getD (g : Graph) (order : List Int) (k : Nat)
    (hk : k < order.length) :
    (create_copylines g order).getD k default =
      ⟨order.getD k 0, (k : Int) + 1, (k : Int) + 1, 1,
        (order.length : Int), (order.length : Int)⟩ := by
  unfold create_copylines
  rw [mkLines_getD _ _ _ _ hk]
  simp [diagLine]

/-! ### Claim theorems: Line Factory -/

/-- C10: `create_copylines` depends only on the vertex-order sequence;
its output is identical for any two graph arguments. -/
theorem create_copylines_graph_independent (g1 g2 : Graph)
    (vertex_order : List Int) :
    create_copylines g1 vertex_order = create_copylines g2 vertex_order := rfl

/-- C5: for every graph and every valid vertex order of length `n`
(a duplicate-free sequence of the graph's vertices covering all of them),
`create_copylines` returns one CopyLine per vertex in input order, the
`k`-th having that vertex, `vslot = hslot = k + 1`, `vstart = 1`,
`vstop = n` and `hstop = n`. -/
theorem create_copylines_valid_order_spec (g : Graph) (order : List Int)
    (_hlen : order.length = g.nodes.length) (_hnd : order.Nodup)
    (_hmem : ∀ x ∈ order, x ∈ g.nodes) :
    (create_copylines g order).length = order.length ∧
    ∀ k : Nat, k < order.length →
      (create_copylines g order).getD k default =
        ⟨order.getD k 0, (k : Int) + 1, (k : Int) + 1, 1,
          (order.length : Int), (order.length : Int)⟩ :=
  ⟨create_copylines_length g order, fun k hk => create_copylines_getD g order k hk⟩

/-- Witness for C5 at the concrete scenario: order `[0, 1, 2]` on `g3`. -/
theorem create_copylines_valid_order_spec_witness :
    (create_copylines g3 [0, 1, 2]).length = 3 ∧
    (create_copylines g3 [0, 1, 2]).getD 1 default = ⟨1, 2, 2, 1, 3, 3⟩ := by
  have h := create_copylines_valid_order_spec g3 [0, 1, 2] (by decide)
    (by decide) (by decide)
  exact ⟨h.1, by simpa using h.2 1 (by norm_num)⟩

/-- C2 counterexample: on the one-vertex graph, the order `[0, 0]` has the
wrong length and a duplicate, yet `create_copylines` returns a normal
CopyLine list instead of failing. -/
theorem create_copylines_no_validation_cex :
    ([0, 0] : List Int).length ≠ (Graph.mk [0] (fun _ _ => false)).nodes.length ∧
    ¬ ([0, 0] : List Int).Nodup ∧
    create_copylines ⟨[0], fun _ _ => false⟩ [0, 0] =
      [⟨0, 1, 1, 1, 2, 2⟩, ⟨0, 2, 2, 1, 2, 2⟩] :=
  ⟨by decide, by decide, rfl⟩

/-- C2 amended: `create_copylines` performs no validation of the vertex
order; for every graph and every order sequence, valid or not, it returns
one CopyLine per order entry (as characterised here) without error. -/
theorem create_copylines_never_fails (g : Graph) (order : List Int) :
    (create_copylines g order).length = order.length ∧
    ∀ k : Nat, k < order.length →
      (create_copylines g order).getD k default =
        ⟨order.getD k 0, (k : Int) + 1, (k : Int) + 1, 1,
          (order.length : Int), (order.length : Int)⟩ :=
  ⟨create_copylines_length g order, fun k hk => create_copylines_getD g order k hk⟩

/-- Witness for C2's amended theorem on an invalid order (duplicates,
wrong length). -/
theorem create_copylines_never_fails_witness :
    (create_copylines ⟨[0], fun _ _ => false⟩ [7, 7]).length = 2 ∧
    (create_copylines ⟨[0], fun _ _ => false⟩ [7, 7]).getD 0 default =
      ⟨7, 1, 1, 1, 2, 2⟩ := by
  have h := create_copylines_never_fails ⟨[0], fun _ _ => false⟩ [7, 7]
  exact ⟨h.1, by simpa using h.2 0 (by norm_num)⟩

/-! ### Claim theorems: lattice bounds and connectivity rule -/

/-- C6: on a lattice of size `n`, every in-bounds query returns a Block,
and every query outside `[1, n] × [1, n]` fails (returns `none`, the
embedding of `IndexError`). -/
theorem getItem_bounds (lat : CrossingLattice) (n : Int)
    (hh : lat.height = n) (hw : lat.width = n) (i j : Int) :
    ((1 ≤ i ∧ i ≤ lat.height ∧ 1 ≤ j ∧ j ≤ lat.width) →
      ∃ blk, lat.getItem i j = some blk) ∧
    (¬ (1 ≤ i ∧ i ≤ n ∧ 1 ≤ j ∧ j ≤ n) → lat.getItem i j = none) := by
  constructor
  · intro h
    unfold CrossingLattice.getItem
    rw [if_pos h]
    exact ⟨_, rfl⟩
  · intro h
    unfold CrossingLattice.getItem
    rw [if_neg]
    intro hc
    exact h ⟨hc.1, hh ▸ hc.2.1, hc.2.2.1, hw ▸ hc.2.2.2⟩

/-- Witness for C6: in-bounds `(2, 2)` succeeds and out-of-bounds `(0, 1)`
fails on the concrete 3×3 lattice. -/
theorem getItem_bounds_witness :
    (∃ blk, lat3.getItem 2 2 = some blk) ∧ lat3.getItem 0 1 = none :=
  ⟨(getItem_bounds lat3 3 rfl rfl 2 2).1 (by decide),
   (getItem_bounds lat3 3 rfl rfl 0 1).2 (by decide)⟩

/-- C1: every Block returned by an in-bounds query has its `connected`
field determined by the rule `h = left if set else right`,
`v = top if set else bottom`, `connected = edge(h, v) ? 1 : 0` when both
are set and `-1` otherwise; hence `connected` is applicable only when a
horizontal-bearing and a vertical-bearing line are both present. -/
theorem getItem_connected_rule (lat : CrossingLattice) (i j : Int)
    (blk : Block) (h : lat.getItem i j = some blk) :
    blk.connected =
      (if blk.vline ≠ -1 ∧ blk.hline ≠ -1 then
        (if lat.graph.hasEdge blk.hline blk.vline then 1 else 0)
      else -1) ∧
    (blk.connected ≠ -1 →
      (blk.left ≠ -1 ∨ blk.right ≠ -1) ∧ (blk.top ≠ -1 ∨ blk.bottom ≠ -1)) := by
  unfold CrossingLattice.getItem at h
  split at h
  · injection h with h
    subst h
    refine ⟨rfl, ?_⟩
    intro hc
    simp only [Block.hline, Block.vline] at *
    constructor
    · by_cases hl : (List.foldl (scanStep i j) ⟨-1, -1, -1, -1⟩ lat.lines).left = -1
      · by_cases hr : (List.foldl (scanStep i j) ⟨-1, -1, -1, -1⟩ lat.lines).right = -1
        · exfalso
          apply hc
          simp [hl, hr]
        · exact Or.inr hr
      · exact Or.inl hl
    · by_cases ht : (List.foldl (scanStep i j) ⟨-1, -1, -1, -1⟩ lat.lines).top = -1
      · by_cases hb : (List.foldl (scanStep i j) ⟨-1, -1, -1, -1⟩ lat.lines).bottom = -1
        · exfalso
          apply hc
          simp [ht, hb]
        · exact Or.inr hb
      · exact Or.inl ht
  · exact absurd h (by simp)

/-- Witness for C1 at the concrete lattice, coordinate `(2, 3)`. -/
theorem getItem_connected_rule_witness :
    (Block.mk 2 2 1 (-1) 1).connected =
      (if (Block.mk 2 2 1 (-1) 1).vline ≠ -1 ∧ (Block.mk 2 2 1 (-1) 1).hline ≠ -1 then
        (if lat3.graph.hasEdge (Block.mk 2 2 1 (-1) 1).hline
            (Block.mk 2 2 1 (-1) 1).vline then 1 else 0)
      else -1) ∧
    ((Block.mk 2 2 1 (-1) 1).connected ≠ -1 →
      ((Block.mk 2 2 1 (-1) 1).left ≠ -1 ∨ (Block.mk 2 2 1 (-1) 1).right ≠ -1) ∧
      ((Block.mk 2 2 1 (-1) 1).top ≠ -1 ∨ (Block.mk 2 2 1 (-1) 1).bottom ≠ -1)) :=
  getItem_connected_rule lat3 2 3 ⟨2, 2, 1, -1, 1⟩ rfl

/-! ### Claim theorems: concrete scenario -/

/-- C3 counterexample: on the concrete scenario, `query(2, 2)` reports
`connected = 0` ("touching but not connected" — the only line at that
coordinate is line 1 crossing itself, and the graph has no self-loop),
not the claimed `-1` ("not applicable"). -/
theorem lattice_scenario_cex :
    (lat3.getItem 2 2).map Block.connected = some 0 ∧ (0 : Int) ≠ -1 :=
  ⟨rfl, by decide⟩

/-- C3 amended: on the concrete scenario graph `{0,1,2}` with edges
`{(0,1), (1,2)}` and order `[0,1,2]`, the Line Factory yields the three
diagonal full-span lines; `query(2, 2)` reports `connected = 0` (line 1
crossing its own slot, no self-loop edge), and the adjacent pairs `(0,1)`
and `(1,2)` show `connected = 1` at `(1, 2)` and `(2, 3)` respectively. -/
theorem lattice_scenario :
    create_copylines g3 [0, 1, 2] =
      [⟨0, 1, 1, 1, 3, 3⟩, ⟨1, 2, 2, 1, 3, 3⟩, ⟨2, 3, 3, 1, 3, 3⟩] ∧
    (lat3.getItem 2 2).map Block.connected = some 0 ∧
    (lat3.getItem 1 2).map Block.connected = some 1 ∧
    (lat3.getItem 2 3).map Block.connected = some 1 :=
  ⟨rfl, rfl, rfl, rfl⟩

/-! ### Range lemmas for the geometry emitter -/

theorem rangeDown_eq_nil {a b : Int} (h : a < b) : rangeDown a b = [] := by
  unfold rangeDown
  have : (a + 1 - b).toNat = 0 := by omega
  rw [this]
  rfl

theorem rangeUp_eq_nil {a b : Int} (h : b < a) : rangeUp a b = [] := by
  unfold rangeUp
  have : (b + 1 - a).toNat = 0 := by omega
  rw [this]
  rfl

theorem mem_rangeDown {a b x : Int} (h : x ∈ rangeDown a b) :
    b ≤ x ∧ x ≤ a := by
  unfold rangeDown at h
  obtain ⟨k, hk, rfl⟩ := List.mem_map.mp h
  rw [List.mem_range] at hk
  omega

theorem mem_rangeUp {a b x : Int} (h : x ∈ rangeUp a b) :
    a ≤ x ∧ x ≤ b := by
  unfold rangeUp at h
  obtain ⟨k, hk, rfl⟩ := List.mem_map.mp h
  rw [List.mem_range] at hk
  omega

@[simp] theorem node_from_type_row (nt : String) (i j w : Int) :
    (node_from_type nt i j w).row = i := by
  unfold node_from_type
  split <;> rfl

@[simp] theorem node_from_type_col (nt : String) (i j w : Int) :
    (node_from_type nt i j w).col = j := by
  unfold node_from_type
  split <;> rfl

theorem node_from_type_weighted (i j w : Int) :
    node_from_type "WeightedNode" i j w = ⟨i, j, w⟩ := by
  unfold node_from_type
  rw [if_neg (by decide)]

/-- Helper: the emitted node list always ends with the center node at
`(I, J + 1)` carrying the `nline` count. -/
theorem copyline_locations_getLast (node_type : String) (tc : CopyLine)
    (padding : Int) :
    (copyline_locations node_type tc padding).getLast? =
      some (node_from_type node_type (center_location tc padding).1
        ((center_location tc padding).2 + 1) (nlineCount tc)) := by
  simp only [copyline_locations]
  rw [List.getLast?_concat]

/-! ### Claim theorems: geometry emitter -/

/-- C7: for every CopyLine, padding and node type, the emitted sequence
ends with the center node at `(I, J + 1)`; that coordinate occurs exactly
once in the whole output; and in the weighted variant the center node's
weight is `nline`, the number of grown directions. -/
theorem copyline_locations_center (node_type : String) (tc : CopyLine)
    (padding : Int) :
    (copyline_locations node_type tc padding).getLast? =
      some (node_from_type node_type (center_location tc padding).1
        ((center_location tc padding).2 + 1) (nlineCount tc)) ∧
    (copyline_locations node_type tc padding).countP
      (fun nd => decide (nd.row = (center_location tc padding).1 ∧
        nd.col = (center_location tc padding).2 + 1)) = 1 ∧
    ((copyline_locations "WeightedNode" tc padding).getLast?).map Node.weight =
      some (nlineCount tc) := by
  refine ⟨copyline_locations_getLast node_type tc padding, ?_, ?_⟩
  · simp only [copyline_locations]
    rw [List.countP_append, List.countP_append, List.countP_append]
    have hup : ∀ nd ∈ (rangeDown (center_location tc padding).1
        ((center_location tc padding).1 + 4 * (tc.vstart - tc.hslot) + 1)).map
        (fun i => node_from_type node_type i (center_location tc padding).2
          (1 + (if i ≠ (center_location tc padding).1
            + 4 * (tc.vstart - tc.hslot) + 1 then 1 else 0))),
        ¬ (decide (nd.row = (center_location tc padding).1 ∧
          nd.col = (center_location tc padding).2 + 1) = true) := by
      intro nd hnd
      obtain ⟨i, _, rfl⟩ := List.mem_map.mp hnd
      simp only [node_from_type_row, node_from_type_col, decide_eq_true_eq,
        not_and]
      intro _
      omega
    have hdown : ∀ nd ∈ (rangeUp (center_location tc padding).1
        ((center_location tc padding).1 + 4 * (tc.vstop - tc.hslot) - 1)).map
        (fun i =>
          if i = (center_location tc padding).1 then
            node_from_type node_type (i + 1) ((center_location tc padding).2 + 1) 2
          else node_from_type node_type i (center_location tc padding).2
            (1 + (if i ≠ (center_location tc padding).1
              + 4 * (tc.vstop - tc.hslot) - 1 then 1 else 0))),
        ¬ (decide (nd.row = (center_location tc padding).1 ∧
          nd.col = (center_location tc padding).2 + 1) = true) := by
      intro nd hnd
      obtain ⟨i, _, rfl⟩ := List.mem_map.mp hnd
      by_cases hi : i = (center_location tc padding).1
      · rw [if_pos hi]
        simp only [node_from_type_row, node_from_type_col,
          decide_eq_true_eq, not_and]
        intro h
        omega
      · simp only [if_neg hi, node_from_type_row, node_from_type_col,
          decide_eq_true_eq, not_and]
        intro _
        omega
    have hright : ∀ nd ∈ (rangeUp ((center_location tc padding).2 + 2)
        ((center_location tc padding).2 + 4 * (tc.hstop - tc.vslot) - 1)).map
        (fun j => node_from_type node_type (center_location tc padding).1 j
          (1 + (if j ≠ (center_location tc padding).2
            + 4 * (tc.hstop - tc.vslot) - 1 then 1 else 0))),
        ¬ (decide (nd.row = (center_location tc padding).1 ∧
          nd.col = (center_location tc padding).2 + 1) = true) := by
      intro nd hnd
      obtain ⟨jj, hjj, rfl⟩ := List.mem_map.mp hnd
      have := mem_rangeUp hjj
      simp only [node_from_type_row, node_from_type_col, decide_eq_true_eq,
        not_and]
      intro _
      omega
    rw [List.countP_eq_zero.mpr hup, List.countP_eq_zero.mpr hdown,
      List.countP_eq_zero.mpr hright]
    simp [List.countP_cons]
  · rw [copyline_locations_getLast "WeightedNode" tc padding]
    rw [node_from_type_weighted]
    rfl

/-- C8: a fully degenerate CopyLine (`vstart = vstop = hslot`,
`hstop = vslot`) emits exactly one node — the center at `(I, J + 1)` with
weight 0 — for every padding. -/
theorem copyline_locations_degenerate (tc : CopyLine) (padding : Int)
    (h1 : tc.vstart = tc.hslot) (h2 : tc.vstop = tc.hslot)
    (h3 : tc.hstop = tc.vslot) :
    copyline_locations "WeightedNode" tc padding =
      [⟨(center_location tc padding).1, (center_location tc padding).2 + 1, 0⟩] := by
  simp only [copyline_locations]
  rw [rangeDown_eq_nil (by omega), rangeUp_eq_nil (by omega),
    rangeUp_eq_nil (by omega)]
  simp only [List.map_nil, List.nil_append]
  rw [node_from_type_weighted]
  have : nlineCount tc = 0 := by
    unfold nlineCount
    rw [if_neg (by omega), if_neg (by omega), if_neg (by omega)]
    rfl
  rw [this]

/-- Witness for C8 at the spec's concrete instance:
`vslot = hslot = 1`, `vstart = vstop = 1`, `hstop = 1`, padding 0. -/
theorem copyline_locations_degenerate_witness :
    copyline_locations "WeightedNode" ⟨0, 1, 1, 1, 1, 1⟩ 0 = [⟨2, 2, 0⟩] :=
  copyline_locations_degenerate ⟨0, 1, 1, 1, 1, 1⟩ 0 rfl rfl rfl

/-! ### Scan-step field lemmas -/

theorem scanStepV_left (i : Int) (line : CopyLine) (s : ScanState) :
    (scanStepV i line s).left = s.left := by
  unfold scanStepV
  split_ifs <;> rfl

theorem scanStepV_right (i : Int) (line : CopyLine) (s : ScanState) :
    (scanStepV i line s).right = s.right := by
  unfold scanStepV
  split_ifs <;> rfl

theorem scanStepH_top (j : Int) (line : CopyLine) (s : ScanState) :
    (scanStepH j line s).top = s.top := by
  unfold scanStepH
  split_ifs <;> rfl

theorem scanStepH_bottom (j : Int) (line : CopyLine) (s : ScanState) :
    (scanStepH j line s).bottom = s.bottom := by
  unfold scanStepH
  split_ifs <;> rfl

theorem scanStep_top_eq (i j : Int) (s : ScanState) (line : CopyLine) :
    (scanStep i j s line).top =
      (if line.vslot = j then scanStepV i line s else s).top := by
  unfold scanStep
  dsimp only
  split
  · rw [scanStepH_top]
  · rfl

theorem scanStep_bottom_eq (i j : Int) (s : ScanState) (line : CopyLine) :
    (scanStep i j s line).bottom =
      (if line.vslot = j then scanStepV i line s else s).bottom := by
  unfold scanStep
  dsimp only
  split
  · rw [scanStepH_bottom]
  · rfl

theorem scanStep_left_eq (i j : Int) (s : ScanState) (line : CopyLine) :
    (scanStep i j s line).left =
      (if line.hslot = i then scanStepH j line s else s).left := by
  unfold scanStep
  dsimp only
  by_cases hh : line.hslot = i
  · rw [if_pos hh, if_pos hh]
    by_cases hv : line.vslot = j
    · rw [if_pos hv]
      unfold scanStepH
      split_ifs <;> simp [scanStepV_left]
    · rw [if_neg hv]
  · rw [if_neg hh, if_neg hh]
    by_cases hv : line.vslot = j
    · rw [if_pos hv, scanStepV_left]
    · rw [if_neg hv]

theorem scanStep_right_eq (i j : Int) (s : ScanState) (line : CopyLine) :
    (scanStep i j s line).right =
      (if line.hslot = i then scanStepH j line s else s).right := by
  unfold scanStep
  dsimp only
  by_cases hh : line.hslot = i
  · rw [if_pos hh, if_pos hh]
    by_cases hv : line.vslot = j
    · rw [if_pos hv]
      unfold scanStepH
      split_ifs <;> simp [scanStepV_right]
    · rw [if_neg hv]
  · rw [if_neg hh, if_neg hh]
    by_cases hv : line.vslot = j
    · rw [if_pos hv, scanStepV_right]
    · rw [if_neg hv]

theorem scanStep_vaxis_none {j : Int} {line : CopyLine} (i : Int)
    (s : ScanState) (h1 : line.vslot ≠ j) :
    (scanStep i j s line).top = s.top ∧
    (scanStep i j s line).bottom = s.bottom :=
  ⟨by rw [scanStep_top_eq, if_neg h1], by rw [scanStep_bottom_eq, if_neg h1]⟩

theorem scanStep_vaxis_degenerate {i j : Int} {line : CopyLine}
    (s : ScanState) (h1 : line.vslot = j) (h2 : line.vstart = i)
    (h3 : line.vstop = i) :
    (scanStep i j s line).top = s.top ∧
    (scanStep i j s line).bottom = s.bottom := by
  constructor
  · rw [scanStep_top_eq, if_pos h1]
    unfold scanStepV
    rw [if_pos ⟨h2, h3⟩]
  · rw [scanStep_bottom_eq, if_pos h1]
    unfold scanStepV
    rw [if_pos ⟨h2, h3⟩]

theorem scanStep_vaxis_start {i j : Int} {line : CopyLine}
    (s : ScanState) (h1 : line.vslot = j) (h2 : line.vstart = i)
    (h3 : line.vstop ≠ i) :
    (scanStep i j s line).bottom = line.vertex ∧
    (scanStep i j s line).top = s.top := by
  constructor
  · rw [scanStep_bottom_eq, if_pos h1]
    unfold scanStepV
    rw [if_neg (fun hc => h3 hc.2), if_pos h2]
  · rw [scanStep_top_eq, if_pos h1]
    unfold scanStepV
    rw [if_neg (fun hc => h3 hc.2), if_pos h2]

theorem scanStep_vaxis_stop {i j : Int} {line : CopyLine}
    (s : ScanState) (h1 : line.vslot = j) (h2 : line.vstop = i)
    (h3 : line.vstart ≠ i) :
    (scanStep i j s line).top = line.vertex ∧
    (scanStep i j s line).bottom = s.bottom := by
  constructor
  · rw [scanStep_top_eq, if_pos h1]
    unfold scanStepV
    rw [if_neg (fun hc => h3 hc.1), if_neg h3, if_pos h2]
  · rw [scanStep_bottom_eq, if_pos h1]
    unfold scanStepV
    rw [if_neg (fun hc => h3 hc.1), if_neg h3, if_pos h2]

theorem scanStep_vaxis_mid {i j : Int} {line : CopyLine}
    (s : ScanState) (h1 : line.vslot = j) (h2 : line.vstart < i)
    (h3 : i < line.vstop) :
    (scanStep i j s line).top = line.vertex ∧
    (scanStep i j s line).bottom = line.vertex := by
  constructor
  · rw [scanStep_top_eq, if_pos h1]
    unfold scanStepV
    rw [if_neg (fun hc => absurd hc.1 (by omega)), if_neg (by omega),
      if_neg (by omega), if_pos ⟨h2, h3⟩]
  · rw [scanStep_bottom_eq, if_pos h1]
    unfold scanStepV
    rw [if_neg (fun hc => absurd hc.1 (by omega)), if_neg (by omega),
      if_neg (by omega), if_pos ⟨h2, h3⟩]

theorem scanStep_haxis_none {i : Int} {line : CopyLine} (j : Int)
    (s : ScanState) (h1 : line.hslot ≠ i) :
    (scanStep i j s line).left = s.left ∧
    (scanStep i j s line).right = s.right :=
  ⟨by rw [scanStep_left_eq, if_neg h1], by rw [scanStep_right_eq, if_neg h1]⟩

theorem scanStep_haxis_degenerate {i j : Int} {line : CopyLine}
    (s : ScanState) (h1 : line.hslot = i) (h2 : line.vslot = j)
    (h3 : line.hstop = j) :
    (scanStep i j s line).left = s.left ∧
    (scanStep i j s line).right = s.right := by
  constructor
  · rw [scanStep_left_eq, if_pos h1]
    unfold scanStepH
    rw [if_pos ⟨h2, h3⟩]
  · rw [scanStep_right_eq, if_pos h1]
    unfold scanStepH
    rw [if_pos ⟨h2, h3⟩]

theorem scanStep_haxis_start {i j : Int} {line : CopyLine}
    (s : ScanState) (h1 : line.hslot = i) (h2 : line.vslot = j)
    (h3 : line.hstop ≠ j) :
    (scanStep i j s line).right = line.vertex ∧
    (scanStep i j s line).left = s.left := by
  constructor
  · rw [scanStep_right_eq, if_pos h1]
    unfold scanStepH
    rw [if_neg (fun hc => h3 hc.2), if_pos h2]
  · rw [scanStep_left_eq, if_pos h1]
    unfold scanStepH
    rw [if_neg (fun hc => h3 hc.2), if_pos h2]

theorem scanStep_haxis_stop {i j : Int} {line : CopyLine}
    (s : ScanState) (h1 : line.hslot = i) (h2 : line.hstop = j)
    (h3 : line.vslot ≠ j) :
    (scanStep i j s line).left = line.vertex ∧
    (scanStep i j s line).right = s.right := by
  constructor
  · rw [scanStep_left_eq, if_pos h1]
    unfold scanStepH
    rw [if_neg (fun hc => h3 hc.1), if_neg h3, if_pos h2]
  · rw [scanStep_right_eq, if_pos h1]
    unfold scanStepH
    rw [if_neg (fun hc => h3 hc.1), if_neg h3, if_pos h2]

theorem scanStep_haxis_mid {i j : Int} {line : CopyLine}
    (s : ScanState) (h1 : line.hslot = i) (h2 : line.vslot < j)
    (h3 : j < line.hstop) :
    (scanStep i j s line).left = line.vertex ∧
    (scanStep i j s line).right = line.vertex := by
  constructor
  · rw [scanStep_left_eq, if_pos h1]
    unfold scanStepH
    rw [if_neg (fun hc => absurd hc.1 (by omega)), if_neg (by omega),
      if_neg (by omega), if_pos ⟨h2, h3⟩]
  · rw [scanStep_right_eq, if_pos h1]
    unfold scanStepH
    rw [if_neg (fun hc => absurd hc.1 (by omega)), if_neg (by omega),
      if_neg (by omega), if_pos ⟨h2, h3⟩]

/-- C4: classification of one line's contribution to the block at
`(i, j)` during the scan. On the vertical axis (`vslot = j`): the
degenerate single-row line contributes nothing; `i = vstart` records the
vertex as bottom; `i = vstop` as top; strictly between as both. Mirror
logic on the horizontal axis (`hslot = i`) fills left/right from
`vslot`/`hstop`, with `vslot = hstop = j` the degenerate column case.
Lines matching neither axis leave all four fields unchanged. -/
theorem scanStep_axis_rules (i j : Int) (s : ScanState) (line : CopyLine) :
    (line.vslot ≠ j →
      (scanStep i j s line).top = s.top ∧
      (scanStep i j s line).bottom = s.bottom) ∧
    (line.vslot = j → line.vstart = i → line.vstop = i →
      (scanStep i j s line).top = s.top ∧
      (scanStep i j s line).bottom = s.bottom) ∧
    (line.vslot = j → line.vstart = i → line.vstop ≠ i →
      (scanStep i j s line).bottom = line.vertex ∧
      (scanStep i j s line).top = s.top) ∧
    (line.vslot = j → line.vstop = i → line.vstart ≠ i →
      (scanStep i j s line).top = line.vertex ∧
      (scanStep i j s line).bottom = s.bottom) ∧
    (line.vslot = j → line.vstart < i → i < line.vstop →
      (scanStep i j s line).top = line.vertex ∧
      (scanStep i j s line).bottom = line.vertex) ∧
    (line.hslot ≠ i →
      (scanStep i j s line).left = s.left ∧
      (scanStep i j s line).right = s.right) ∧
    (line.hslot = i → line.vslot = j → line.hstop = j →
      (scanStep i j s line).left = s.left ∧
      (scanStep i j s line).right = s.right) ∧
    (line.hslot = i → line.vslot = j → line.hstop ≠ j →
      (scanStep i j s line).right = line.vertex ∧
      (scanStep i j s line).left = s.left) ∧
    (line.hslot = i → line.hstop = j → line.vslot ≠ j →
      (scanStep i j s line).left = line.vertex ∧
      (scanStep i j s line).right = s.right) ∧
    (line.hslot = i → line.vslot < j → j < line.hstop →
      (scanStep i j s line).left = line.vertex ∧
      (scanStep i j s line).right = line.vertex) :=
  ⟨fun h1 => scanStep_vaxis_none i s h1,
   fun h1 h2 h3 => scanStep_vaxis_degenerate s h1 h2 h3,
   fun h1 h2 h3 => scanStep_vaxis_start s h1 h2 h3,
   fun h1 h2 h3 => scanStep_vaxis_stop s h1 h2 h3,
   fun h1 h2 h3 => scanStep_vaxis_mid s h1 h2 h3,
   fun h1 => scanStep_haxis_none j s h1,
   fun h1 h2 h3 => scanStep_haxis_degenerate s h1 h2 h3,
   fun h1 h2 h3 => scanStep_haxis_start s h1 h2 h3,
   fun h1 h2 h3 => scanStep_haxis_stop s h1 h2 h3,
   fun h1 h2 h3 => scanStep_haxis_mid s h1 h2 h3⟩

/-- Witness for C4: line 1 of the concrete scenario at `(1, 2)` — its
vertical start records bottom, its horizontal start records right. -/
theorem scanStep_axis_rules_witness :
    ((scanStep 1 2 ⟨-1, -1, -1, -1⟩ ⟨1, 2, 2, 1, 3, 3⟩).bottom = 1 ∧
      (scanStep 1 2 ⟨-1, -1, -1, -1⟩ ⟨1, 2, 2, 1, 3, 3⟩).top = -1) ∧
    ((scanStep 2 2 ⟨-1, -1, -1, -1⟩ ⟨1, 2, 2, 1, 3, 3⟩).right = 1 ∧
      (scanStep 2 2 ⟨-1, -1, -1, -1⟩ ⟨1, 2, 2, 1, 3, 3⟩).left = -1) :=
  ⟨(scanStep_axis_rules 1 2 ⟨-1, -1, -1, -1⟩ ⟨1, 2, 2, 1, 3, 3⟩).2.2.1
      (by decide) (by decide) (by decide),
   (scanStep_axis_rules 2 2 ⟨-1, -1, -1, -1⟩ ⟨1, 2, 2, 1, 3, 3⟩).2.2.2.2.2.2.2.1
      (by decide) (by decide) (by decide)⟩

/-! ### Fold characterisation for the diagonal construction -/

theorem scanStepV_scanStepH_comm (i j : Int) (lv lh : CopyLine)
    (s : ScanState) :
    scanStepV i lv (scanStepH j lh s) = scanStepH j lh (scanStepV i lv s) := by
  unfold scanStepV scanStepH
  split_ifs <;> rfl

theorem scanStep_diagLine (n slot w i j : Int) (s : ScanState) :
    scanStep i j s (diagLine n slot w) =
      (if slot = i then scanStepH j (diagLine n slot w) else id)
        ((if slot = j then scanStepV i (diagLine n slot w) else id) s) := by
  unfold scanStep diagLine
  dsimp only
  by_cases hi : slot = i <;> by_cases hj : slot = j <;>
    simp [hi, hj, ite_apply]

/-- The scan over the lines produced by `create_copylines`: at `(i, j)`,
only the line in vertical slot `j` can contribute top/bottom and only the
line in horizontal slot `i` can contribute left/right. -/
theorem foldl_mkLines (n i j : Int) (l : List Int) (m : Nat) (s : ScanState) :
    (mkLines n m l).foldl (scanStep i j) s =
      (if (m : Int) + 1 ≤ i ∧ i ≤ (m : Int) + l.length then
        scanStepH j (diagLine n i (l.getD (i - (m : Int) - 1).toNat 0))
          (if (m : Int) + 1 ≤ j ∧ j ≤ (m : Int) + l.length then
            scanStepV i (diagLine n j (l.getD (j - (m : Int) - 1).toNat 0)) s
          else s)
      else
        (if (m : Int) + 1 ≤ j ∧ j ≤ (m : Int) + l.length then
          scanStepV i (diagLine n j (l.getD (j - (m : Int) - 1).toNat 0)) s
        else s)) := by
  induction l generalizing m s with
  | nil =>
    simp only [mkLines, List.foldl_nil, List.length_nil, Nat.cast_zero,
      add_zero]
    rw [if_neg (by omega), if_neg (by omega)]
  | cons w t ih =>
    simp only [mkLines, List.foldl_cons, List.length_cons]
    rw [ih (m + 1), scanStep_diagLine]
    by_cases ci : (m : Int) + 1 = i
    · rw [if_neg (show ¬ (((m + 1 : Nat) : Int) + 1 ≤ i ∧
        i ≤ ((m + 1 : Nat) : Int) + (t.length : Int)) by push_cast; omega)]
      rw [if_pos ci]
      by_cases cj : (m : Int) + 1 = j
      · rw [if_neg (show ¬ (((m + 1 : Nat) : Int) + 1 ≤ j ∧
          j ≤ ((m + 1 : Nat) : Int) + (t.length : Int)) by push_cast; omega)]
        rw [if_pos cj]
        rw [if_pos (show (m : Int) + 1 ≤ i ∧
          i ≤ (m : Int) + ((t.length + 1 : Nat) : Int) by push_cast; omega)]
        rw [if_pos (show (m : Int) + 1 ≤ j ∧
          j ≤ (m : Int) + ((t.length + 1 : Nat) : Int) by push_cast; omega)]
        rw [show (i - (m : Int) - 1).toNat = 0 by omega]
        rw [show (j - (m : Int) - 1).toNat = 0 by omega]
        rw [List.getD_cons_zero, ← ci, ← cj]
      · rw [if_neg cj]
        simp only [id_eq]
        by_cases cv : ((m + 1 : Nat) : Int) + 1 ≤ j ∧
            j ≤ ((m + 1 : Nat) : Int) + (t.length : Int)
        · rw [if_pos cv]
          rw [if_pos (show (m : Int) + 1 ≤ i ∧
            i ≤ (m : Int) + ((t.length + 1 : Nat) : Int) by push_cast; omega)]
          rw [if_pos (show (m : Int) + 1 ≤ j ∧
            j ≤ (m : Int) + ((t.length + 1 : Nat) : Int) by
              push_cast at cv ⊢; omega)]
          rw [show (i - (m : Int) - 1).toNat = 0 by omega]
          rw [List.getD_cons_zero]
          rw [show (j - (m : Int) - 1).toNat = (j - (m : Int) - 2).toNat + 1 by
            push_cast at cv; omega]
          rw [List.getD_cons_succ]
          rw [show (j - ((m + 1 : Nat) : Int) - 1).toNat
            = (j - (m : Int) - 2).toNat by push_cast; omega]
          rw [← ci]
          apply scanStepV_scanStepH_comm
        · rw [if_neg cv]
          rw [if_pos (show (m : Int) + 1 ≤ i ∧
            i ≤ (m : Int) + ((t.length + 1 : Nat) : Int) by push_cast; omega)]
          rw [if_neg (show ¬ ((m : Int) + 1 ≤ j ∧
            j ≤ (m : Int) + ((t.length + 1 : Nat) : Int)) by
              push_cast at cv ⊢; omega)]
          rw [show (i - (m : Int) - 1).toNat = 0 by omega]
          rw [List.getD_cons_zero, ← ci]
    · rw [if_neg ci]
      simp only [id_eq]
      by_cases ch : ((m + 1 : Nat) : Int) + 1 ≤ i ∧
          i ≤ ((m + 1 : Nat) : Int) + (t.length : Int)
      · rw [if_pos ch]
        rw [if_pos (show (m : Int) + 1 ≤ i ∧
          i ≤ (m : Int) + ((t.length + 1 : Nat) : Int) by
            push_cast at ch ⊢; omega)]
        rw [show (i - ((m + 1 : Nat) : Int) - 1).toNat
          = (i - (m : Int) - 2).toNat by push_cast; omega]
        rw [show (i - (m : Int) - 1).toNat = (i - (m : Int) - 2).toNat + 1 by
          push_cast at ch; omega]
        rw [List.getD_cons_succ]
        by_cases cj : (m : Int) + 1 = j
        · rw [if_neg (show ¬ (((m + 1 : Nat) : Int) + 1 ≤ j ∧
            j ≤ ((m + 1 : Nat) : Int) + (t.length : Int)) by push_cast; omega)]
          rw [if_pos cj]
          rw [if_pos (show (m : Int) + 1 ≤ j ∧
            j ≤ (m : Int) + ((t.length + 1 : Nat) : Int) by push_cast; omega)]
          rw [show (j - (m : Int) - 1).toNat = 0 by omega]
          rw [List.getD_cons_zero, ← cj]
        · rw [if_neg cj]
          simp only [id_eq]
          by_cases cv : ((m + 1 : Nat) : Int) + 1 ≤ j ∧
              j ≤ ((m + 1 : Nat) : Int) + (t.length : Int)
          · rw [if_pos cv]
            rw [if_pos (show (m : Int) + 1 ≤ j ∧
              j ≤ (m : Int) + ((t.length + 1 : Nat) : Int) by
                push_cast at cv ⊢; omega)]
            rw [show (j - (m : Int) - 1).toNat
              = (j - (m : Int) - 2).toNat + 1 by push_cast at cv; omega]
            rw [List.getD_cons_succ]
            rw [show (j - ((m + 1 : Nat) : Int) - 1).toNat
              = (j - (m : Int) - 2).toNat by push_cast; omega]
          · rw [if_neg cv]
            rw [if_neg (show ¬ ((m : Int) + 1 ≤ j ∧
              j ≤ (m : Int) + ((t.length + 1 : Nat) : Int)) by
                push_cast at cv ⊢; omega)]
      · rw [if_neg ch]
        rw [if_neg (show ¬ ((m : Int) + 1 ≤ i ∧
          i ≤ (m : Int) + ((t.length + 1 : Nat) : Int)) by
            push_cast at ch ⊢; omega)]
        by_cases cj : (m : Int) + 1 = j
        · rw [if_neg (show ¬ (((m + 1 : Nat) : Int) + 1 ≤ j ∧
            j ≤ ((m + 1 : Nat) : Int) + (t.length : Int)) by push_cast; omega)]
          rw [if_pos cj]
          rw [if_pos (show (m : Int) + 1 ≤ j ∧
            j ≤ (m : Int) + ((t.length + 1 : Nat) : Int) by push_cast; omega)]
          rw [show (j - (m : Int) - 1).toNat = 0 by omega]
          rw [List.getD_cons_zero, ← cj]
        · rw [if_neg cj]
          simp only [id_eq]
          by_cases cv : ((m + 1 : Nat) : Int) + 1 ≤ j ∧
              j ≤ ((m + 1 : Nat) : Int) + (t.length : Int)
          · rw [if_pos cv]
            rw [if_pos (show (m : Int) + 1 ≤ j ∧
              j ≤ (m : Int) + ((t.length + 1 : Nat) : Int) by
                push_cast at cv ⊢; omega)]
            rw [show (j - (m : Int) - 1).toNat
              = (j - (m : Int) - 2).toNat + 1 by push_cast at cv; omega]
            rw [List.getD_cons_succ]
            rw [show (j - ((m + 1 : Nat) : Int) - 1).toNat
              = (j - (m : Int) - 2).toNat by push_cast; omega]
          · rw [if_neg cv]
            rw [if_neg (show ¬ ((m : Int) + 1 ≤ j ∧
              j ≤ (m : Int) + ((t.length + 1 : Nat) : Int)) by
                push_cast at cv ⊢; omega)]

/-- The scan over `create_copylines` output at an in-bounds coordinate
reduces to the contributions of the line in vertical slot `j` and the
line in horizontal slot `i`. -/
theorem scan_create (g : Graph) (order : List Int) (i j : Int)
    (hi1 : 1 ≤ i) (hi2 : i ≤ (order.length : Int))
    (hj1 : 1 ≤ j) (hj2 : j ≤ (order.length : Int)) :
    (create_copylines g order).foldl (scanStep i j) ⟨-1, -1, -1, -1⟩ =
      scanStepH j (diagLine (order.length : Int) i (order.getD (i - 1).toNat 0))
        (scanStepV i (diagLine (order.length : Int) j (order.getD (j - 1).toNat 0))
          ⟨-1, -1, -1, -1⟩) := by
  unfold create_copylines
  rw [foldl_mkLines]
  rw [if_pos (show ((0 : Nat) : Int) + 1 ≤ i ∧
    i ≤ ((0 : Nat) : Int) + (order.length : Int) by push_cast; omega)]
  rw [if_pos (show ((0 : Nat) : Int) + 1 ≤ j ∧
    j ≤ ((0 : Nat) : Int) + (order.length : Int) by push_cast; omega)]
  rw [show (i - ((0 : Nat) : Int) - 1).toNat = (i - 1).toNat by push_cast; omega]
  rw [show (j - ((0 : Nat) : Int) - 1).toNat = (j - 1).toNat by push_cast; omega]

/-- Closed form of the scan state at an in-bounds coordinate for the
diagonal full-span construction (`vstart = 1`, `vstop = hstop = n`,
`vslot = hslot`), for lattices with at least two lines. -/
theorem diag_V (n i j wj : Int) (hi1 : 1 ≤ i) (hi2 : i ≤ n) (hn : 2 ≤ n) :
    scanStepV i (diagLine n j wj) ⟨-1, -1, -1, -1⟩ =
      ⟨if 1 < i then wj else -1, if i < n then wj else -1, -1, -1⟩ := by
  unfold scanStepV diagLine
  dsimp only
  split_ifs <;> first | rfl | (exfalso; omega)

theorem diag_H (n i j wi tp bt : Int) (_hj1 : 1 ≤ j) (hj2 : j ≤ n)
    (hi2 : i ≤ n) :
    scanStepH j (diagLine n i wi) ⟨tp, bt, -1, -1⟩ =
      ⟨tp, bt, if i < j then wi else -1, if i ≤ j ∧ j < n then wi else -1⟩ := by
  unfold scanStepH diagLine
  dsimp only
  split_ifs <;> first | rfl | (exfalso; omega)

theorem diag_scan_fields (n i j wi wj : Int) (hi1 : 1 ≤ i) (hi2 : i ≤ n)
    (hj1 : 1 ≤ j) (hj2 : j ≤ n) (hn : 2 ≤ n) :
    scanStepH j (diagLine n i wi)
        (scanStepV i (diagLine n j wj) ⟨-1, -1, -1, -1⟩) =
      ⟨if 1 < i then wj else -1,
       if i < n then wj else -1,
       if i < j then wi else -1,
       if i ≤ j ∧ j < n then wi else -1⟩ := by
  rw [diag_V n i j wj hi1 hi2 hn, diag_H n i j wi _ _ hj1 hj2 hi2]

/-- The lattice of the default construction: width = height = n,
lines from `create_copylines`, with the original graph. -/
def buildLattice (g : Graph) (order : List Int) : CrossingLattice :=
  ⟨(order.length : Int), (order.length : Int), create_copylines g order, g⟩

/-- Closed form of the Block returned at an in-bounds coordinate of the
default-construction lattice (derived; see `getItem_create`). -/
def diagBlock (g : Graph) (order : List Int) (i j : Int) : Block :=
  let n : Int := (order.length : Int)
  let wi := order.getD (i - 1).toNat 0
  let wj := order.getD (j - 1).toNat 0
  let top := if 1 < i then wj else -1
  let bottom := if i < n then wj else -1
  let left := if i < j then wi else -1
  let right := if i ≤ j ∧ j < n then wi else -1
  let h := if left ≠ -1 then left else right
  let v := if top ≠ -1 then top else bottom
  ⟨top, bottom, left, right,
    if v ≠ -1 ∧ h ≠ -1 then (if g.hasEdge h v then 1 else 0) else -1⟩

theorem getItem_create (g : Graph) (order : List Int) (i j : Int)
    (hi1 : 1 ≤ i) (hi2 : i ≤ (order.length : Int))
    (hj1 : 1 ≤ j) (hj2 : j ≤ (order.length : Int))
    (hn : 2 ≤ (order.length : Int)) :
    (buildLattice g order).getItem i j = some (diagBlock g order i j) := by
  unfold buildLattice CrossingLattice.getItem
  dsimp only
  rw [if_pos ⟨hi1, hi2, hj1, hj2⟩]
  rw [scan_create g order i j hi1 hi2 hj1 hj2]
  rw [diag_scan_fields _ i j _ _ hi1 hi2 hj1 hj2 hn]
  rfl

theorem getItem_some_bounds {lat : CrossingLattice} {i j : Int} {blk : Block}
    (h : lat.getItem i j = some blk) :
    1 ≤ i ∧ i ≤ lat.height ∧ 1 ≤ j ∧ j ≤ lat.width := by
  unfold CrossingLattice.getItem at h
  split at h
  · assumption
  · exact absurd h (by simp)

theorem nodup_getD_inj {order : List Int} (hnd : order.Nodup) {k k' : Nat}
    (hk : k < order.length) (hk' : k' < order.length)
    (h : order.getD k 0 = order.getD k' 0) : k = k' := by
  rw [List.getD_eq_getElem order 0 hk, List.getD_eq_getElem order 0 hk'] at h
  exact (List.Nodup.getElem_inj_iff hnd).mp h

theorem getD_ne_neg_one {order : List Int} (hno : ∀ x ∈ order, x ≠ -1)
    {k : Nat} (hk : k < order.length) : order.getD k 0 ≠ -1 := by
  rw [List.getD_eq_getElem order 0 hk]
  exact hno _ (List.getElem_mem hk)

theorem diagBlock_connected_eq (g : Graph) (order : List Int) (i j : Int) :
    (diagBlock g order i j).connected =
      if (diagBlock g order i j).vline ≠ -1 ∧ (diagBlock g order i j).hline ≠ -1
      then (if g.hasEdge (diagBlock g order i j).hline
        (diagBlock g order i j).vline then 1 else 0)
      else -1 := rfl

theorem diagBlock_hline (g : Graph) (order : List Int) (i j : Int) :
    (diagBlock g order i j).hline =
      if i < j ∨ (i = j ∧ j < (order.length : Int)) then
        order.getD (i - 1).toNat 0
      else -1 := by
  unfold diagBlock Block.hline
  dsimp only
  split_ifs <;> first | rfl | omega

theorem diagBlock_vline (g : Graph) (order : List Int) (i j : Int)
    (hi1 : 1 ≤ i) (_hi2 : i ≤ (order.length : Int))
    (hn : 2 ≤ (order.length : Int)) :
    (diagBlock g order i j).vline = order.getD (j - 1).toNat 0 := by
  unfold diagBlock Block.vline
  dsimp only
  split_ifs <;> first | rfl | omega

/-- C9 (amended with the proviso that no vertex id equals the sentinel
`-1`): for adjacent vertices `u = order[a]` and `v = order[b]` under the
default diagonal full-span construction, the crossing of line `a` and
line `b` reports `connected = 1` at exactly one in-bounds coordinate,
namely `(min a b + 1, max a b + 1)` — the same coordinate from either
line's point of view. -/
theorem crossing_unique_symmetric (g : Graph) (order : List Int) (a b : Nat)
    (hnd : order.Nodup) (hno : ∀ x ∈ order, x ≠ -1)
    (hsym : ∀ x y : Int, g.hasEdge x y = g.hasEdge y x)
    (ha : a < order.length) (hb : b < order.length) (hab : a ≠ b)
    (hedge : g.hasEdge (order.getD a 0) (order.getD b 0) = true)
    (i j : Int) :
    (∃ blk, (buildLattice g order).getItem i j = some blk ∧
      blk.connected = 1 ∧
      ((blk.hline = order.getD a 0 ∧ blk.vline = order.getD b 0) ∨
       (blk.hline = order.getD b 0 ∧ blk.vline = order.getD a 0)))
    ↔ (i = ((min a b : Nat) : Int) + 1 ∧ j = ((max a b : Nat) : Int) + 1) := by
  have hn : 2 ≤ (order.length : Int) := by
    have h2 : 2 ≤ order.length := by omega
    exact_mod_cast h2
  constructor
  · rintro ⟨blk, hblk, hconn, hmatch⟩
    obtain ⟨hi1, hi2, hj1, hj2⟩ := getItem_some_bounds hblk
    have hi2' : i ≤ (order.length : Int) := hi2
    have hj2' : j ≤ (order.length : Int) := hj2
    rw [getItem_create g order i j hi1 hi2' hj1 hj2' hn] at hblk
    injection hblk with hbe
    subst hbe
    rw [diagBlock_connected_eq,
      diagBlock_vline g order i j hi1 hi2' hn, diagBlock_hline] at hconn
    rw [diagBlock_vline g order i j hi1 hi2' hn, diagBlock_hline] at hmatch
    by_cases hC : i < j ∨ (i = j ∧ j < (order.length : Int))
    · rw [if_pos hC] at hconn hmatch
      by_cases hset : order.getD (j - 1).toNat 0 ≠ -1 ∧
          order.getD (i - 1).toNat 0 ≠ -1
      · have hki : (i - 1).toNat < order.length := by omega
        have hkj : (j - 1).toNat < order.length := by omega
        rcases hmatch with ⟨hia, hjb⟩ | ⟨hib, hja⟩
        · have e1 : (i - 1).toNat = a := nodup_getD_inj hnd hki ha hia
          have e2 : (j - 1).toNat = b := nodup_getD_inj hnd hkj hb hjb
          have hij : i ≠ j := by
            intro hij
            apply hab
            rw [← e1, ← e2, hij]
          have hlt : i < j := by rcases hC with h | h; exacts [h, absurd h.1 hij]
          constructor <;> omega
        · have e1 : (i - 1).toNat = b := nodup_getD_inj hnd hki hb hib
          have e2 : (j - 1).toNat = a := nodup_getD_inj hnd hkj ha hja
          have hij : i ≠ j := by
            intro hij
            apply hab
            rw [← e1, ← e2, hij]
          have hlt : i < j := by rcases hC with h | h; exacts [h, absurd h.1 hij]
          constructor <;> omega
      · rw [if_neg hset] at hconn
        exact absurd hconn (by decide)
    · rw [if_neg hC] at hconn
      rw [if_neg (fun hx => hx.2 rfl)] at hconn
      exact absurd hconn (by decide)
  · rintro ⟨rfl, rfl⟩
    have hminmax : min a b < max a b := by omega
    have hi1 : (1 : Int) ≤ ((min a b : Nat) : Int) + 1 := by omega
    have hi2 : ((min a b : Nat) : Int) + 1 ≤ (order.length : Int) := by omega
    have hj1 : (1 : Int) ≤ ((max a b : Nat) : Int) + 1 := by omega
    have hj2 : ((max a b : Nat) : Int) + 1 ≤ (order.length : Int) := by omega
    refine ⟨diagBlock g order (((min a b : Nat) : Int) + 1)
      (((max a b : Nat) : Int) + 1),
      getItem_create g order _ _ hi1 hi2 hj1 hj2 hn, ?_, ?_⟩
    · rw [diagBlock_connected_eq,
        diagBlock_vline g order _ _ hi1 hi2 hn, diagBlock_hline]
      rw [show ((((min a b : Nat) : Int) + 1) - 1).toNat = min a b by omega]
      rw [show ((((max a b : Nat) : Int) + 1) - 1).toNat = max a b by omega]
      rw [if_pos (Or.inl (by omega))]
      rw [if_pos ⟨getD_ne_neg_one hno (by omega), getD_ne_neg_one hno (by omega)⟩]
      rw [if_pos ?_]
      rcases Nat.lt_or_ge a b with hlt | hge
      · rw [show min a b = a by omega, show max a b = b by omega]
        exact hedge
      · rw [show min a b = b by omega, show max a b = a by omega, hsym]
        exact hedge
    · rw [diagBlock_vline g order _ _ hi1 hi2 hn, diagBlock_hline]
      rw [show ((((min a b : Nat) : Int) + 1) - 1).toNat = min a b by omega]
      rw [show ((((max a b : Nat) : Int) + 1) - 1).toNat = max a b by omega]
      rw [if_pos (Or.inl (by omega))]
      rcases Nat.lt_or_ge a b with hlt | hge
      · rw [show min a b = a by omega, show max a b = b by omega]
        exact Or.inl ⟨rfl, rfl⟩
      · rw [show min a b = b by omega, show max a b = a by omega]
        exact Or.inr ⟨rfl, rfl⟩

/-- Witness for C9's amended theorem: the pair `(0, 1)` of the concrete
scenario crosses with `connected = 1` at `(1, 2)`. -/
theorem crossing_unique_symmetric_witness :
    ∃ blk, (buildLattice g3 [0, 1, 2]).getItem 1 2 = some blk ∧
      blk.connected = 1 ∧
      ((blk.hline = ([0, 1, 2] : List Int).getD 0 0 ∧
        blk.vline = ([0, 1, 2] : List Int).getD 1 0) ∨
       (blk.hline = ([0, 1, 2] : List Int).getD 1 0 ∧
        blk.vline = ([0, 1, 2] : List Int).getD 0 0)) :=
  (crossing_unique_symmetric g3 [0, 1, 2] 0 1 (by decide) (by decide)
    (by
      intro x y
      dsimp only [g3]
      rw [decide_eq_decide]
      tauto)
    (by decide) (by decide) (by decide) (by decide) 1 2).mpr (by decide)

/-- A graph whose vertex ids include the sentinel value `-1`:
vertices `{-1, 0}` with the single undirected edge `(-1, 0)`. -/
def gN : Graph :=
  ⟨[-1, 0], fun x y => decide ((x = -1 ∧ y = 0) ∨ (x = 0 ∧ y = -1))⟩

/-- C9 counterexample: with vertex id `-1` (colliding with the "no line"
sentinel), the adjacent pair `(-1, 0)` of `gN` under order `[-1, 0]`
reports `connected = -1` at every in-bounds coordinate of the 2×2
lattice, so no coordinate at all — rather than exactly one — reports the
crossing as connected. -/
theorem crossing_unique_symmetric_cex :
    gN.hasEdge (-1) 0 = true ∧
    gN.hasEdge 0 (-1) = true ∧
    ([-1, 0] : List Int).Nodup ∧
    (buildLattice gN [-1, 0]).height = 2 ∧
    (buildLattice gN [-1, 0]).width = 2 ∧
    (buildLattice gN [-1, 0]).getItem 1 1 = some ⟨-1, -1, -1, -1, -1⟩ ∧
    (buildLattice gN [-1, 0]).getItem 1 2 = some ⟨-1, 0, -1, -1, -1⟩ ∧
    (buildLattice gN [-1, 0]).getItem 2 1 = some ⟨-1, -1, -1, -1, -1⟩ ∧
    (buildLattice gN [-1, 0]).getItem 2 2 = some ⟨0, -1, -1, -1, -1⟩ :=
  ⟨rfl, rfl, by decide, rfl, rfl, rfl, rfl, rfl, rfl⟩

end Udm
